import Mathlib

/-!
Verification development for the STVPoll repository: a shallow embedding of the
vote-transfer engine (stvpoll/abcs.py, stvpoll/utils.py) and its two round-based
rule variants (stvpoll/irv.py, stvpoll/scottish_stv.py), together with theorems
about the documented properties of the counting algorithms.

Modelling conventions:
- Proposal identifiers (str or int in the source) are embedded as naturals.
- Python Decimal values are embedded as exact rationals; the only explicit
  rounding in the counting core, ScottishSTV.round, is embedded as
  round-half-even at five decimal places (the Decimal default rounding mode).
- Python dicts keyed by proposals are embedded as association lists that keep
  insertion order; dict.pop is list filtering.
- Mutating methods become state-passing functions; a method that can raise
  returns the partial state reached together with an optional error, so that
  mutations performed before a raise survive, exactly as in CPython.
- The IncompleteResult exception is the PyErr.incomplete error; hard runtime
  errors the source can hit (ValueError from max or min on an empty sequence)
  are PyErr.crash; loops the source runs without bound are given fuel, and
  running out of fuel is PyErr.fuel.
-/

set_option allowUnsafeReducibility true in
attribute [semireducible] Rat.add Rat.mul Rat.sub Rat.inv Rat.ofScientific

namespace STV

/-- Candidate identifiers: opaque, equality-comparable proposals. -/
abbrev Proposal := ℕ

/-- Python floor on an exact rational (math.floor); equals Int.floor. -/
def pyFloor (x : ℚ) : ℤ := x.num / (x.den : ℤ)

/-- Round-half-even to an integer, the default Decimal rounding mode used by
round(value, 5) in the source. -/
def roundHalfEven (x : ℚ) : ℤ :=
  let f : ℤ := pyFloor x
  let r : ℚ := x - f
  if r < 1/2 then f
  else if 1/2 < r then f + 1
  else if Even f then f else f + 1

/-- Association-list lookup with default 0: embeds reading a Decimal vote count
out of the votes dict (a missing key would be a KeyError in the source; every
lookup the theorems rely on is backed by a presence fact). -/
abbrev Votes := List (Proposal × ℚ)

def lookupD (votes : Votes) (p : Proposal) : ℚ := (votes.lookup p).getD 0

/-- Add an amount to the entry of an existing key (votes[p] += v). -/
def bumpVotes (votes : Votes) (p : Proposal) (v : ℚ) : Votes :=
  votes.map (fun kv => if kv.1 = p then (kv.1, kv.2 + v) else kv)

/-- Keys of the votes dict. -/
def voteKeys (votes : Votes) : List Proposal := votes.map (·.1)

/-- Sum of all values of the votes dict. -/
def votesSum (votes : Votes) : ℚ := (votes.map (·.2)).sum

/-- Counter-style accumulation used for the transfers log:
transfers[(source, target)] += value. -/
def bumpCounter (log : List ((Proposal × Proposal) × ℚ)) (k : Proposal × Proposal) (v : ℚ) :
    List ((Proposal × Proposal) × ℚ) :=
  if (log.lookup k).isSome then
    log.map (fun kv => if kv.1 = k then (kv.1, kv.2 + v) else kv)
  else log ++ [(k, v)]

/-- Python max(items, key) and min(items, key): the first item attaining the
extreme value; none models the ValueError raised on an empty sequence. -/
def minmax (items : List Proposal) (key : Proposal → ℚ) (high : Bool) : Option Proposal :=
  match items with
  | [] => none
  | x :: xs => some (xs.foldl (fun acc y =>
      if high then (if key acc < key y then y else acc)
      else (if key y < key acc then y else acc)) x)

/-- utils.PreferenceBallot: a weighted ranked ballot with a live-weight
multiplier and a cursor into the ranking. -/
structure PreferenceBallot where
  preferences : List Proposal
  count : ℕ
  multiplier : ℚ
  index : ℕ
deriving DecidableEq

namespace PreferenceBallot

/-- Effective value: multiplier * count. -/
def value (b : PreferenceBallot) : ℚ := b.multiplier * b.count

/-- decrease_value: multiplier *= fraction. -/
def decrease_value (b : PreferenceBallot) (fraction : ℚ) : PreferenceBallot :=
  { b with multiplier := b.multiplier * fraction }

/-- current_preference: the proposal at the cursor, none once past the end
(the source suppresses the IndexError and returns None). -/
def current_preference (b : PreferenceBallot) : Option Proposal :=
  b.preferences.get? b.index

/-- exhausted: the cursor is at or past the end of the ranking. -/
def exhausted (b : PreferenceBallot) : Bool := b.preferences.length ≤ b.index

/-- The advance loop of get_transfer_preference, structurally recursive on the
number of remaining positions (the source loop runs while the ballot is not
exhausted, so it performs at most length - index steps; with that fuel the
zero case coincides with the exhausted guard). -/
def gtpAux (standing : List Proposal) : ℕ → PreferenceBallot → PreferenceBallot × Option Proposal
  | 0, b => (b, none)
  | fuel + 1, b =>
    if b.exhausted then (b, none)
    else
      let b1 : PreferenceBallot := { b with index := b.index + 1 }
      match b1.current_preference with
      | some p => if p ∈ standing then (b1, some p) else gtpAux standing fuel b1
      | none => gtpAux standing fuel b1

/-- get_transfer_preference: advance the cursor until it points at a standing
proposal or the ballot exhausts; returns the mutated ballot and the found
proposal, if any. -/
def get_transfer_preference (b : PreferenceBallot) (standing : List Proposal) :
    PreferenceBallot × Option Proposal :=
  gtpAux standing (b.preferences.length - b.index) b

end PreferenceBallot

/-- utils.SelectionMethod. -/
inductive SelectionMethod where
  | Direct
  | History
  | Random
  | NoCompetition
  | CPO
deriving DecidableEq

/-- utils.ProposalStatus. -/
inductive ProposalStatus where
  | Elected
  | Excluded
  | Hopeful
deriving DecidableEq

/-- utils.ElectionRound: one audit-trail round record. -/
structure ElectionRound where
  index : ℕ
  selected : List Proposal
  votes : Votes
  selection_method : Option SelectionMethod
  status : Option ProposalStatus
deriving DecidableEq

/-- ElectionRound.select: record the selected proposals, method and status. -/
def ElectionRound.select (r : ElectionRound) (ps : List Proposal) (m : SelectionMethod)
    (st : ProposalStatus) : ElectionRound :=
  { r with selected := r.selected ++ ps, selection_method := some m, status := some st }

/-- utils.TransferLogItem. -/
structure TransferLogItem where
  transfers : Option (List ((Proposal × Proposal) × ℚ))
  current_votes : Votes
  exhausted_votes : ℚ
deriving DecidableEq

/-- utils.ElectionResult, without the wall-clock fields (start_time, runtime)
and the extra_data metadata bag, which no verified property reads. -/
structure ElectionResult where
  exhausted : ℚ
  empty_ballot_count : ℕ
  rounds : List ElectionRound
  elected : List Proposal
  transfer_log : List TransferLogItem
deriving DecidableEq

/-- A fresh ElectionResult as built at poll construction. -/
def ElectionResult.fresh : ElectionResult := ⟨0, 0, [], [], []⟩

/-- Mutate the last round in place (current_round.select in the source; the
empty case would be an IndexError and is unreached because new_round always
precedes it). -/
def updateLast (rs : List ElectionRound) (f : ElectionRound → ElectionRound) :
    List ElectionRound :=
  match rs.getLast? with
  | some r => rs.dropLast ++ [f r]
  | none => []

/-- ElectionResult.new_round. -/
def ElectionResult.new_round (r : ElectionResult) (votes : Votes) : ElectionResult :=
  { r with rounds := r.rounds ++ [⟨r.rounds.length + 1, [], votes, none, none⟩] }

/-- ElectionResult.elect for a list of proposals. -/
def ElectionResult.elect_list (r : ElectionResult) (ps : List Proposal) (m : SelectionMethod) :
    ElectionResult :=
  { r with elected := r.elected ++ ps,
           rounds := updateLast r.rounds (fun rd => rd.select ps m .Elected) }

/-- ElectionResult.exclude for a list of proposals. -/
def ElectionResult.exclude_list (r : ElectionResult) (ps : List Proposal) (m : SelectionMethod) :
    ElectionResult :=
  { r with rounds := updateLast r.rounds (fun rd => rd.select ps m .Excluded) }

/-- abcs.STVPoll instance state. The construction-time callables
(quota function, tiebreaker strategies) live in a separate Config record. -/
structure STVPoll where
  proposals : List Proposal
  seats : ℕ
  pedantic_order : Bool
  quota_cache : Option ℤ
  votes : Votes
  excluded : List Proposal
  ballots : List PreferenceBallot
  votes_transferred : List Proposal
  result : ElectionResult
deriving DecidableEq

/-- Failure modes of a counting step. -/
inductive PyErr where
  | incomplete
  | crash
  | fuel
deriving DecidableEq

namespace STVPoll

/-- ballot_count: total count over the (non-empty) registered ballots. -/
def ballot_count (s : STVPoll) : ℕ := (s.ballots.map (·.count)).sum

/-- get_votes on the live votes dict. -/
def get_votes (s : STVPoll) (p : Proposal) : ℚ := lookupD s.votes p

/-- standing_proposals: neither excluded nor elected. -/
def standing_proposals (s : STVPoll) : List Proposal :=
  s.proposals.filter (fun p => !s.excluded.contains p && !s.result.elected.contains p)

/-- get_transferable_proposals: winners or excluded whose votes have not yet
been transferred. -/
def get_transferable_proposals (s : STVPoll) : List Proposal :=
  let standing := s.standing_proposals
  s.proposals.filter (fun p => !standing.contains p && !s.votes_transferred.contains p)

/-- seats_to_fill, an integer because elect_multiple can elect past the seat
count in the source. -/
def seats_to_fill (s : STVPoll) : ℤ := (s.seats : ℤ) - s.result.elected.length

/-- ElectionResult.is_complete: elected count equals the seat count. -/
def is_complete (s : STVPoll) : Bool := s.result.elected.length == s.seats

/-- current_votes property (a deepcopy in the source; values are immutable here). -/
def current_votes (s : STVPoll) : Votes := s.votes

end STVPoll

/-- A tiebreaker strategy: consumes the poll state, the tied proposals and the
highest-or-lowest flag, returning a (possibly reduced) proposal list, plus the
selection method it reports. -/
structure Tiebreaker where
  run : STVPoll → List Proposal → Bool → List Proposal
  selection_method : SelectionMethod

/-- Construction-time callables the Python instance stores: the quota function
and the tiebreaker chain. -/
structure Config where
  quota_function : STVPoll → ℤ
  tiebreakers : List Tiebreaker

namespace STVPoll

/-- The quota property: computed through the configured quota function on first
access and cached in _quota for the lifetime of the poll. -/
def quota (cfg : Config) (s : STVPoll) : ℤ × STVPoll :=
  match s.quota_cache with
  | some q => (q, s)
  | none =>
    let q := cfg.quota_function s
    (q, { s with quota_cache := some q })

/-- add_ballot: an empty ranking only bumps the empty-ballot counter, any other
ranking is registered as a PreferenceBallot with multiplier 1 and cursor 0.
No membership check against the proposal set is performed. -/
def add_ballot (s : STVPoll) (ranking : List Proposal) (count : ℕ) : STVPoll :=
  if ranking.isEmpty then
    { s with result.empty_ballot_count := s.result.empty_ballot_count + count }
  else
    { s with ballots := s.ballots ++ [⟨ranking, count, 1, 0⟩] }

/-- initial_votes: seed every ballot's value onto its current (first)
preference and append the round-0 transfer-log entry with no transfer map. -/
def initial_votes (s : STVPoll) : STVPoll :=
  let votes1 := s.ballots.foldl (fun v b =>
    match b.current_preference with
    | some p => bumpVotes v p b.value
    | none => v) s.votes
  { s with votes := votes1,
           result := { s.result with
             transfer_log := s.result.transfer_log ++
               [⟨none, votes1, s.result.exhausted⟩] } }

/-- One iteration of the ballot loop inside transfer_votes, threading the
rebuilt ballot list, the votes dict, the exhausted total and the transfer
counter. The standing list is passed in once: it only depends on proposals,
excluded and elected, none of which the loop mutates. -/
def transfer_step (standing : List Proposal) (proposal : Proposal) (fraction : ℚ)
    (acc : List PreferenceBallot × Votes × ℚ × List ((Proposal × Proposal) × ℚ))
    (b : PreferenceBallot) :
    List PreferenceBallot × Votes × ℚ × List ((Proposal × Proposal) × ℚ) :=
  let (bs, votes, exh, log) := acc
  if b.current_preference = some proposal then
    let b1 := b.decrease_value fraction
    match b1.get_transfer_preference standing with
    | (b2, some target) =>
      (bs ++ [b2], bumpVotes votes target b2.value, exh,
       bumpCounter log (proposal, target) b2.value)
    | (b2, none) => (bs ++ [b2], votes, exh + b2.value, log)
  else (bs ++ [b], votes, exh, log)

/-- transfer_votes: move the departing proposal's ballots to their next
standing preferences at the given fraction, pop the proposal from the votes
dict, mark it transferred, and append a transfer-log entry. -/
def transfer_votes (s : STVPoll) (proposal : Proposal) (fraction : ℚ) : STVPoll :=
  let standing := s.standing_proposals
  let folded := s.ballots.foldl (transfer_step standing proposal fraction)
    ([], s.votes, s.result.exhausted, [])
  let votes2 := folded.2.1.filter (fun kv => kv.1 != proposal)
  { s with
    ballots := folded.1,
    votes := votes2,
    votes_transferred := s.votes_transferred ++ [proposal],
    result := { s.result with
      exhausted := folded.2.2.1,
      transfer_log := s.result.transfer_log ++
        [⟨some folded.2.2.2, votes2, folded.2.2.1⟩] } }

end STVPoll

/-- get_ties: all proposals of the sample whose vote count equals the given
proposal's; none unless more than one is tied. -/
def get_ties (votes : Votes) (sample : List Proposal) (proposal : Proposal) :
    Option (List Proposal) :=
  let pv := lookupD votes proposal
  let ties := sample.filter (fun p => lookupD votes p == pv)
  if 1 < ties.length then some ties else none

/-- resolve_tie: walk the tiebreaker chain until exactly one proposal remains;
raising IncompleteResult when the chain is exhausted. -/
def resolve_tie (s : STVPoll) : List Tiebreaker → List Proposal → Bool →
    Except PyErr (Proposal × SelectionMethod)
  | [], _, _ => .error .incomplete
  | tb :: rest, ties, most =>
    match tb.run s ties most with
    | [p] => .ok (p, tb.selection_method)
    | ties1 => resolve_tie s rest ties1 most

namespace STVPoll

/-- get_proposal: pick the extreme-vote proposal of the sample; if others in
the standing set are tied with it, defer to the tiebreaker chain. The none
branch of minmax is the ValueError of max or min on an empty sample. -/
def get_proposal (cfg : Config) (s : STVPoll) (most_votes : Bool) (sample : List Proposal) :
    Except PyErr (Proposal × SelectionMethod) :=
  match minmax sample s.get_votes most_votes with
  | none => .error .crash
  | some proposal =>
    match get_ties s.votes s.standing_proposals proposal with
    | some ties => resolve_tie s cfg.tiebreakers ties most_votes
    | none => .ok (proposal, .Direct)

/-- elect: open a new round on the current votes and record one elected
proposal. -/
def elect (s : STVPoll) (p : Proposal) (m : SelectionMethod) : STVPoll :=
  { s with result := (s.result.new_round s.current_votes).elect_list [p] m }

/-- exclude: append to the excluded list, open a new round, record exclusion. -/
def exclude (s : STVPoll) (p : Proposal) (m : SelectionMethod) : STVPoll :=
  let s1 := { s with excluded := s.excluded ++ [p] }
  { s1 with result := (s1.result.new_round s1.current_votes).exclude_list [p] m }

/-- Stable descending insertion for sortedByVotesDesc: a proposal moves ahead
of another only when it has strictly more votes, so equal-vote proposals keep
their original relative order, as Python's stable sorted(reverse=True) does. -/
def insertDesc (key : Proposal → ℚ) (x : Proposal) : List Proposal → List Proposal
  | [] => [x]
  | y :: ys => if key y < key x then x :: y :: ys else y :: insertDesc key x ys

/-- Stable descending sort by key. -/
def sortDesc (key : Proposal → ℚ) : List Proposal → List Proposal
  | [] => []
  | x :: xs => insertDesc key x (sortDesc key xs)

/-- Python sorted(ps, key=get_votes, reverse=True): stable descending sort. -/
def sortedByVotesDesc (s : STVPoll) (ps : List Proposal) : List Proposal :=
  sortDesc s.get_votes ps

/-- The pedantic-order branch of elect_multiple: repeatedly pick one proposal
of the sample through get_proposal, electing it, until a tie-break error stops
the loop. The source loop (while proposals) never shrinks its list, so normal
termination is impossible and fuel exhaustion models its divergence. -/
def elect_pedantic (cfg : Config) : ℕ → STVPoll → List Proposal → STVPoll × Option PyErr
  | 0, s, ps => if ps.isEmpty then (s, none) else (s, some .fuel)
  | fuel + 1, s, ps =>
    if ps.isEmpty then (s, none)
    else
      match s.get_proposal cfg true ps with
      | .error e => (s, some e)
      | .ok (p, m) =>
        elect_pedantic cfg fuel { s with result := s.result.elect_list [p] m } ps

/-- elect_multiple: for a non-empty list, open one round, then either elect in
pedantic order (resolving ties one by one) or elect the whole list sorted by
descending votes. -/
def elect_multiple (cfg : Config) (fuel : ℕ) (s : STVPoll) (ps : List Proposal)
    (m : SelectionMethod) : STVPoll × Option PyErr :=
  if ps.isEmpty then (s, none)
  else
    let s1 : STVPoll := { s with result := s.result.new_round s.current_votes }
    if s1.pedantic_order then elect_pedantic cfg fuel s1 ps
    else ({ s1 with result := s1.result.elect_list (sortedByVotesDesc s1 ps) m }, none)

end STVPoll

/-- The stage walk of tiebreakers.TransferHistoryTiebreaker: newest to oldest
transfer-log snapshot, keeping only the proposals still tied at each stage. -/
def history_go (most : Bool) : List TransferLogItem → List Proposal → List Proposal
  | [], ties => ties
  | stage :: rest, ties =>
    match minmax ties (lookupD stage.current_votes) most with
    | none => ties
    | some primary =>
      match get_ties stage.current_votes ties primary with
      | none => [primary]
      | some stage_ties => history_go most rest stage_ties

/-- tiebreakers.TransferHistoryTiebreaker. -/
def TransferHistoryTiebreaker : Tiebreaker :=
  ⟨fun s ties most => history_go most s.result.transfer_log.reverse ties, .History⟩

/-- tiebreakers.RandomListTiebreaker: the pre-shuffled list is fixed at
construction (a cached random sample of the proposals) and consumed in order,
or in reverse order when looking for the lowest. The empty fallback models the
StopIteration that next() would raise if the list did not cover the ties; the
result_randomized bookkeeping only touches the unmodelled extra_data bag. -/
def RandomListTiebreaker (random_list : List Proposal) : Tiebreaker :=
  ⟨fun _ ties most =>
    let order := if most then random_list else random_list.reverse
    match order.find? (fun p => ties.contains p) with
    | some p => [p]
    | none => [], .Random⟩

/-- irv.irv_quota: floor of half the ballots (counting empty ones) plus one,
a strict majority. -/
def irv_quota (s : STVPoll) : ℤ :=
  pyFloor ((s.ballot_count + s.result.empty_ballot_count : ℚ) / 2) + 1

/-- Modelled from the spec: quotas.py is not among the given sources; the spec
defines the Droop quota as floor(ballots / (seats + 1)) + 1. -/
def droop_quota (s : STVPoll) : ℤ :=
  pyFloor ((s.ballot_count : ℚ) / (s.seats + 1)) + 1

namespace ScottishSTV

/-- ScottishSTV.round: round a value to 5 decimal places, Decimal default
rounding (half-even). -/
def round5 (value : ℚ) : ℚ := (roundHalfEven (value * 100000) : ℚ) / 100000

/-- ScottishSTV.get_transfer_fraction: (votes - quota) / votes rounded to 5
places; accessing the quota property can compute and cache it. -/
def get_transfer_fraction (cfg : Config) (s : STVPoll) (p : Proposal) : ℚ × STVPoll :=
  let votes := s.get_votes p
  let qs := s.quota cfg
  (round5 ((votes - qs.1) / votes), qs.2)

/-- ScottishSTV.calculate_round. -/
def calculate_round (cfg : Config) (fuel : ℕ) (s0 : STVPoll) : STVPoll × Option PyErr :=
  let qs := s0.quota cfg
  let q := qs.1
  let s := qs.2
  let above := s.standing_proposals.filter (fun p => (q : ℚ) ≤ s.get_votes p)
  if !above.isEmpty then s.elect_multiple cfg fuel above .Direct
  else
    let transferable := s.get_transferable_proposals
    if !transferable.isEmpty then
      match s.get_proposal cfg true transferable with
      | .error e => (s, some e)
      | .ok (p, _) =>
        let fs := get_transfer_fraction cfg s p
        (fs.2.transfer_votes p fs.1, none)
    else if s.seats_to_fill = s.standing_proposals.length then
      s.elect_multiple cfg fuel s.standing_proposals .NoCompetition
    else
      match s.get_proposal cfg false s.standing_proposals with
      | .error e => (s, some e)
      | .ok (p, m) => ((s.exclude p m).transfer_votes p 1, none)

end ScottishSTV

namespace IRV

/-- IRV.calculate_round: elect the first standing proposal at or above quota;
raise IncompleteResult when a lone standing candidate cannot reach it;
otherwise exclude the proposal with fewest votes and transfer all its votes. -/
def calculate_round (cfg : Config) (s0 : STVPoll) : STVPoll × Option PyErr :=
  let qs := s0.quota cfg
  let q := qs.1
  let s := qs.2
  match s.standing_proposals.find? (fun p => decide ((q : ℚ) ≤ s.get_votes p)) with
  | some p => (s.elect p .Direct, none)
  | none =>
    if s.standing_proposals.length = 1 then (s, some .incomplete)
    else
      match s.get_proposal cfg false s.standing_proposals with
      | .error e => (s, some e)
      | .ok (p, m) => ((s.exclude p m).transfer_votes p 1, none)

end IRV

/-- STVRoundsPoll.perform_calculation: run calculate_round while seats remain
to fill; none is fuel exhaustion (the source loop has no bound of its own). -/
def run_rounds (round : STVPoll → STVPoll × Option PyErr) :
    ℕ → STVPoll → Option (STVPoll × Option PyErr)
  | fuel, s =>
    if s.seats_to_fill = 0 then some (s, none)
    else
      match fuel with
      | 0 => none
      | f + 1 =>
        match round s with
        | (s1, none) => run_rounds round f s1
        | (s1, some e) => some (s1, some e)

/-- STVPoll.calculate: seed initial votes, run the rounds with IncompleteResult
suppressed, and hand back the poll (whose result field the source returns). -/
def calculate (round : STVPoll → STVPoll × Option PyErr) (fuel : ℕ) (s : STVPoll) :
    Option (STVPoll × Option PyErr) :=
  (run_rounds round fuel s.initial_votes).map (fun r =>
    match r with
    | (s1, some .incomplete) => (s1, none)
    | other => other)

/-- Modelled from the spec: random.shuffle (the stdlib collaborator invoked by
the constructor) applies a randomness-driven permutation in place; the random
source is embedded as a stream of naturals selecting which element comes next. -/
def shuffle : List ℕ → List Proposal → List Proposal
  | _, [] => []
  | [], l => l
  | k :: ks, x :: xs =>
    let l := x :: xs
    let i : Fin l.length := ⟨k % l.length, Nat.mod_lt _ (Nat.succ_pos xs.length)⟩
    l.get i :: shuffle ks (l.eraseIdx i)

/-- STVPoll.__init__: reject seat counts above the proposal count
(STVException), shuffle the stored proposal list, and zero-initialise the
votes dict in shuffled order. -/
def STVPoll.init (seed : List ℕ) (seats : ℕ) (proposals : List Proposal)
    (pedantic_order : Bool) : Except Unit STVPoll :=
  if proposals.length < seats then .error ()
  else
    let shuffled := shuffle seed proposals
    .ok { proposals := shuffled
          seats := seats
          pedantic_order := pedantic_order
          quota_cache := none
          votes := shuffled.map (fun p => (p, 0))
          excluded := []
          ballots := []
          votes_transferred := []
          result := ElectionResult.fresh }

/-- IRV.__init__: the seats keyword is overwritten with 1 before the base
constructor runs, so the supplied seat count is ignored entirely. -/
def IRV.init (seed : List ℕ) (seats : ℕ) (proposals : List Proposal)
    (pedantic_order : Bool) : Except Unit STVPoll :=
  STVPoll.init seed 1 proposals pedantic_order

/-- The fixed fields of ElectionResult.as_dict that the verified properties
read (winners, proposals, complete, quota, empty_ballot_count); rounds detail
and extra_data are omitted. -/
structure ResultDict where
  winners : List Proposal
  proposals : List Proposal
  complete : Bool
  empty_ballot_count : ℕ
  quota : ℤ
deriving DecidableEq

/-- ElectionResult.as_dict: reading it touches the quota property, which may
compute and cache the quota. -/
def STVPoll.as_dict (cfg : Config) (s : STVPoll) : ResultDict × STVPoll :=
  let qs := s.quota cfg
  (⟨s.result.elected, s.proposals, s.is_complete, s.result.empty_ballot_count, qs.1⟩, qs.2)

/-! ### Concrete example elections used by closed theorems -/

/-- A three-candidate poll as built by the constructor with an order-preserving
shuffle seed; used to exercise add_ballot with an unknown candidate. -/
def examplePoll3 : STVPoll :=
  { proposals := [1, 2, 3]
    seats := 3
    pedantic_order := false
    quota_cache := none
    votes := [(1, 0), (2, 0), (3, 0)]
    excluded := []
    ballots := []
    votes_transferred := []
    result := ElectionResult.fresh }

/-- A poll holding a single one-preference ballot of count 1; used to evaluate
the IRV quota before and after an empty ballot arrives. -/
def examplePollIrv : STVPoll :=
  { proposals := [1, 2]
    seats := 1
    pedantic_order := false
    quota_cache := none
    votes := [(1, 0), (2, 0)]
    excluded := []
    ballots := [⟨[1], 1, 1, 0⟩]
    votes_transferred := []
    result := ElectionResult.fresh }

/-- Total live weight of the ballots currently pointing at a proposal; the
ledger-accuracy invariant states that a proposal's votes-dict entry equals
this quantity. -/
def weightAt (ballots : List PreferenceBallot) (p : Proposal) : ℚ :=
  ((ballots.filter (fun b => b.current_preference == some p)).map (·.value)).sum

/-- Total count of a ballot list (ballot_count ranges over s.ballots). -/
def countsOf (ballots : List PreferenceBallot) : ℕ := (ballots.map (·.count)).sum

/-- The conserved quantity named by the conservation law: ledger total plus
exhausted weight plus empty-ballot count. -/
def conservedSum (s : STVPoll) : ℚ :=
  votesSum s.votes + s.result.exhausted + s.result.empty_ballot_count

/-- Total ballot weight: the sum of all ballot counts, empty ones included. -/
def totalWeight (s : STVPoll) : ℚ :=
  (s.ballot_count : ℚ) + s.result.empty_ballot_count

/-- A configuration whose callables are never consulted by the theorem using
it (the quota is already cached in the states below). -/
def trivialConfig : Config := ⟨fun _ => 0, []⟩

/-- A mid-election Scottish poll: proposal 1 was elected on 4 votes against a
cached quota of 3 and awaits its surplus transfer; one ballot of count 4 ranks
1 then 2. Vote weight is conserved in this state (4 + 0 + 0 = 4). -/
def conservationPoll : STVPoll :=
  { proposals := [1, 2]
    seats := 2
    pedantic_order := false
    quota_cache := some 3
    votes := [(1, 4), (2, 0)]
    excluded := []
    ballots := [⟨[1, 2], 4, 1, 0⟩]
    votes_transferred := []
    result := { exhausted := 0, empty_ballot_count := 0,
                rounds := [⟨1, [1], [(1, 4), (2, 0)], some .Direct, some .Elected⟩],
                elected := [1],
                transfer_log := [⟨none, [(1, 4), (2, 0)], 0⟩] } }

/-- A poll about to transfer the surplus of proposal 1, which holds 4 votes
against a cached quota of 3: the exact surplus fraction is 1/4. -/
def surplusPollQuarter : STVPoll :=
  { proposals := [1, 2]
    seats := 1
    pedantic_order := false
    quota_cache := some 3
    votes := [(1, 4), (2, 0)]
    excluded := []
    ballots := [⟨[1, 2], 4, 1, 0⟩]
    votes_transferred := []
    result := ElectionResult.fresh }

/-- A poll about to transfer the surplus of proposal 1, which holds 3 votes
against a cached quota of 2: the exact surplus fraction 1/3 is not
representable in 5 decimal places. -/
def surplusPollThird : STVPoll :=
  { proposals := [1, 2]
    seats := 1
    pedantic_order := false
    quota_cache := some 2
    votes := [(1, 3), (2, 0)]
    excluded := []
    ballots := [⟨[1, 2], 3, 1, 0⟩]
    votes_transferred := []
    result := ElectionResult.fresh }

/-- The poll produced by constructing with proposals [10, 20] and shuffle seed
[1]: the stored list comes out reversed. -/
def shuffledPoll : STVPoll :=
  { proposals := [20, 10]
    seats := 1
    pedantic_order := false
    quota_cache := none
    votes := [(20, 0), (10, 0)]
    excluded := []
    ballots := []
    votes_transferred := []
    result := ElectionResult.fresh }

/-- The documented contract of tiebreaker strategies: they return a selection
from the supplied proposals (any amount, from one to all of them). Both
shipped tiebreakers satisfy it. -/
def TiebreakersShrink (cfg : Config) : Prop :=
  ∀ tb ∈ cfg.tiebreakers, ∀ (s : STVPoll) (ties : List Proposal) (most : Bool),
    ∀ x ∈ tb.run s ties most, x ∈ ties

/-- The Scottish configuration with random_in_tiebreaks disabled: droop quota
(modelled from the spec) and the transfer-history tiebreaker only. -/
def scottishHistoryConfig : Config := ⟨droop_quota, [TransferHistoryTiebreaker]⟩

/-- An IRV configuration with no tiebreakers (random_in_tiebreaks disabled). -/
def irvPlainConfig : Config := ⟨irv_quota, []⟩

/-- A two-proposal Scottish election, seats 2, a single ballot 10 x [1, 2],
before initial seeding: its calculation needs three rounds. -/
def c8scotPoll : STVPoll :=
  { proposals := [1, 2]
    seats := 2
    pedantic_order := false
    quota_cache := none
    votes := [(1, 0), (2, 0)]
    excluded := []
    ballots := [⟨[1, 2], 10, 1, 0⟩]
    votes_transferred := []
    result := ElectionResult.fresh }

/-- A one-proposal IRV election after initial seeding: one ballot on the only
candidate, one seat. -/
def c8irvPoll : STVPoll :=
  { proposals := [1]
    seats := 1
    pedantic_order := false
    quota_cache := none
    votes := [(1, 1)]
    excluded := []
    ballots := [⟨[1], 1, 1, 0⟩]
    votes_transferred := []
    result := ElectionResult.fresh }

/-- A Scottish configuration with a caller-supplied constant quota of 11 and
random_in_tiebreaks disabled (history tiebreaker only). -/
def pedanticConfig : Config := ⟨fun _ => 11, [TransferHistoryTiebreaker]⟩

/-- A pedantic-order Scottish election engineered so that, in the elect round,
the first pedantic pick is resolved by history (electing the only seat) and
the second pick raises the unresolved-tie signal after the seat is filled:
candidates 1, 2, 3 reach a three-way tie at 11 votes after candidate 4 is
excluded, history distinguishes candidate 2 (10 initial votes) but never
separates 1 from 3 (9 initial votes each). -/
def pedanticPoll : STVPoll :=
  { proposals := [1, 2, 3, 4]
    seats := 1
    pedantic_order := true
    quota_cache := none
    votes := [(1, 0), (2, 0), (3, 0), (4, 0)]
    excluded := []
    ballots := [⟨[1], 9, 1, 0⟩, ⟨[2], 10, 1, 0⟩, ⟨[3], 9, 1, 0⟩,
                ⟨[4, 1], 2, 1, 0⟩, ⟨[4, 2], 1, 1, 0⟩, ⟨[4, 3], 2, 1, 0⟩]
    votes_transferred := []
    result := ElectionResult.fresh }

/-- A two-candidate IRV election whose two ballots tie at one vote each: with
no tiebreakers the first round raises the unresolved-tie signal. -/
def c2irvPoll : STVPoll :=
  { proposals := [1, 2]
    seats := 1
    pedantic_order := false
    quota_cache := none
    votes := [(1, 0), (2, 0)]
    excluded := []
    ballots := [⟨[1], 1, 1, 0⟩, ⟨[2], 1, 1, 0⟩]
    votes_transferred := []
    result := ElectionResult.fresh }

/-- The state of c2irvPoll at the moment the signal is raised: initial votes
seeded, quota 2 computed and cached, nothing elected. -/
def c2irvRaised : STVPoll :=
  { proposals := [1, 2]
    seats := 1
    pedantic_order := false
    quota_cache := some 2
    votes := [(1, 1), (2, 1)]
    excluded := []
    ballots := [⟨[1], 1, 1, 0⟩, ⟨[2], 1, 1, 0⟩]
    votes_transferred := []
    result := { exhausted := 0, empty_ballot_count := 0, rounds := [],
                elected := [], transfer_log := [⟨none, [(1, 1), (2, 1)], 0⟩] } }

/-! ### Theorems -/

theorem pyFloor_eq_floor (x : ℚ) : pyFloor x = ⌊x⌋ := (Rat.floor_def).symm

/-- C3: the spec and the repository's own test suite (test_exceptions expects a
CandidateDoesNotExist raise) require add_ballot to reject rankings naming a
proposal outside the known set, but the implementation performs no membership
check: on a concrete three-candidate poll, a ranking containing the unknown
candidate 4 is accepted and registered as an ordinary ballot, with no error of
any kind. -/
theorem c3_add_ballot_accepts_unknown_candidate :
    STVPoll.init [] 3 [1, 2, 3] false = .ok examplePoll3
    ∧ (4 ∈ examplePoll3.proposals) = False
    ∧ examplePoll3.add_ballot [1, 4] 1 =
        { examplePoll3 with ballots := [⟨[1, 4], 1, 1, 0⟩] } := by
  refine ⟨rfl, by decide, rfl⟩

/-- C4 (amended): add_ballot with an empty ranking increments the empty-ballot
counter and leaves every other field of the poll unchanged, so a quota function
reading only the registered ballots (such as the Droop quota) is unaffected;
the IRV quota, which reads the empty-ballot counter, is not covered (see the
counterexample). -/
theorem c4_empty_ballot_frame (s : STVPoll) (count : ℕ) :
    (s.add_ballot [] count).result.empty_ballot_count
        = s.result.empty_ballot_count + count
    ∧ (s.add_ballot [] count).ballots = s.ballots
    ∧ (s.add_ballot [] count).votes = s.votes
    ∧ (s.add_ballot [] count).proposals = s.proposals
    ∧ (s.add_ballot [] count).seats = s.seats
    ∧ (s.add_ballot [] count).excluded = s.excluded
    ∧ (s.add_ballot [] count).votes_transferred = s.votes_transferred
    ∧ (s.add_ballot [] count).quota_cache = s.quota_cache
    ∧ (s.add_ballot [] count).result.elected = s.result.elected
    ∧ droop_quota (s.add_ballot [] count) = droop_quota s := by
  refine ⟨rfl, rfl, rfl, rfl, rfl, rfl, rfl, rfl, rfl, rfl⟩

/-- C4 counterexample: on a poll holding one non-empty ballot, adding an empty
ballot changes the value computed by the IRV quota function from 1 to 2, so an
empty ranking does affect the quota for IRV elections. -/
theorem c4_empty_ballot_moves_irv_quota :
    irv_quota examplePollIrv = 1
    ∧ irv_quota (examplePollIrv.add_ballot [] 1) = 2
    ∧ irv_quota (examplePollIrv.add_ballot [] 1) ≠ irv_quota examplePollIrv := by
  refine ⟨by decide, by decide, by decide⟩

/-- C7: the quota is computed at most once. After any first access through the
quota property, a later access returns the very same cached value and state,
whatever quota function the configuration would now supply; and elections,
exclusions and vote transfers never touch the cache. -/
theorem c7_quota_computed_once (cfg cfg2 : Config) (s : STVPoll) (p t : Proposal)
    (f : ℚ) (m : SelectionMethod) :
    STVPoll.quota cfg2 (STVPoll.quota cfg s).2
        = ((STVPoll.quota cfg s).1, (STVPoll.quota cfg s).2)
    ∧ (s.elect p m).quota_cache = s.quota_cache
    ∧ (s.exclude p m).quota_cache = s.quota_cache
    ∧ (s.transfer_votes t f).quota_cache = s.quota_cache
    ∧ (s.add_ballot [t] 1).quota_cache = s.quota_cache := by
  refine ⟨?_, rfl, rfl, rfl, rfl⟩
  cases h : s.quota_cache with
  | some q => simp [STVPoll.quota, h]
  | none => simp [STVPoll.quota, h]

/-- C10: the IRV constructor overwrites the supplied seats value with 1, so the
construction outcome is independent of that argument, a successfully built IRV
poll contests exactly one seat, and (for any state contesting one seat) the
result is complete exactly when one proposal has been elected. -/
theorem c10_irv_single_seat (seed : List ℕ) (a b : ℕ) (proposals : List Proposal)
    (po : Bool) (s : STVPoll) (h : IRV.init seed a proposals po = .ok s) :
    IRV.init seed a proposals po = IRV.init seed b proposals po
    ∧ s.seats = 1
    ∧ (∀ t : STVPoll, t.seats = s.seats →
        (t.is_complete = true ↔ t.result.elected.length = 1)) := by
  refine ⟨rfl, ?_, ?_⟩
  · unfold IRV.init STVPoll.init at h
    split at h
    · exact absurd h (by simp)
    · cases h
      rfl
  · intro t ht
    have hs : s.seats = 1 := by
      unfold IRV.init STVPoll.init at h
      split at h
      · exact absurd h (by simp)
      · cases h
        rfl
    rw [hs] at ht
    simp [STVPoll.is_complete, ht]

/-- Round-half-even lands within one half of its argument. -/
theorem roundHalfEven_close (x : ℚ) : |(roundHalfEven x : ℚ) - x| ≤ 1/2 := by
  simp only [roundHalfEven, pyFloor_eq_floor]
  have h0 : (⌊x⌋ : ℚ) ≤ x := Int.floor_le x
  have h1 : x < ⌊x⌋ + 1 := Int.lt_floor_add_one x
  split_ifs with ha hb hc
  · rw [abs_le]
    constructor <;> linarith
  · rw [abs_le]
    push_cast
    constructor <;> linarith
  · rw [abs_le]
    constructor <;> linarith
  · rw [abs_le]
    push_cast
    constructor <;> linarith

/-- Rounding to five decimal places moves a value by at most 1/200000. -/
theorem round5_close (v : ℚ) : |ScottishSTV.round5 v - v| ≤ 1/200000 := by
  have h := roundHalfEven_close (v * 100000)
  have he : ScottishSTV.round5 v - v
      = ((roundHalfEven (v * 100000) : ℚ) - v * 100000) / 100000 := by
    unfold ScottishSTV.round5
    ring
  rw [he, abs_div, abs_of_pos (show (0:ℚ) < 100000 by norm_num)]
  calc |(roundHalfEven (v * 100000) : ℚ) - v * 100000| / 100000
      ≤ (1/2) / 100000 := by gcongr
    _ = 1/200000 := by norm_num

/-- C5 (amended): the Scottish transfer fraction is the exact surplus fraction
(votes - quota) / votes rounded half-even to five decimal places, and is
therefore within 1/200000 of it, but not in general equal to it (see the
counterexample). -/
theorem c5_transfer_fraction_rounded (cfg : Config) (s : STVPoll) (p : Proposal)
    (hv : 0 < s.get_votes p) :
    (ScottishSTV.get_transfer_fraction cfg s p).1
        = ScottishSTV.round5 ((s.get_votes p - ((s.quota cfg).1 : ℚ)) / s.get_votes p)
    ∧ |(ScottishSTV.get_transfer_fraction cfg s p).1
        - (s.get_votes p - ((s.quota cfg).1 : ℚ)) / s.get_votes p| ≤ 1/200000 :=
  ⟨rfl, round5_close _⟩

/-- C5 witness: a poll with 4 votes against a cached quota of 3 yields exactly
the fraction 1/4, within bound. -/
theorem c5_transfer_fraction_rounded_witness :
    0 < surplusPollQuarter.get_votes 1
    ∧ (ScottishSTV.get_transfer_fraction trivialConfig surplusPollQuarter 1).1
        = ScottishSTV.round5 ((surplusPollQuarter.get_votes 1
            - ((surplusPollQuarter.quota trivialConfig).1 : ℚ)) / surplusPollQuarter.get_votes 1)
    ∧ |(ScottishSTV.get_transfer_fraction trivialConfig surplusPollQuarter 1).1
        - (surplusPollQuarter.get_votes 1
            - ((surplusPollQuarter.quota trivialConfig).1 : ℚ)) / surplusPollQuarter.get_votes 1|
        ≤ 1/200000 := by
  have hv : 0 < surplusPollQuarter.get_votes 1 := by decide
  have h := c5_transfer_fraction_rounded trivialConfig surplusPollQuarter 1 hv
  exact ⟨hv, h.1, h.2⟩

/-- C5 counterexample: with 3 votes against a cached quota of 2 the applied
fraction is 33333/100000, not the exact surplus fraction 1/3, so the fraction
is not computed with exact arithmetic as claimed. -/
theorem c5_transfer_fraction_not_exact :
    (ScottishSTV.get_transfer_fraction trivialConfig surplusPollThird 1).1
        ≠ (surplusPollThird.get_votes 1 - ((surplusPollThird.quota trivialConfig).1 : ℚ))
            / surplusPollThird.get_votes 1 := by
  decide

/-- Bumping a key leaves the key list unchanged. -/
theorem voteKeys_bumpVotes (l : Votes) (p : Proposal) (v : ℚ) :
    voteKeys (bumpVotes l p v) = voteKeys l := by
  unfold voteKeys bumpVotes
  rw [List.map_map]
  apply List.map_congr_left
  intro kv _
  by_cases h : kv.1 = p <;> simp [h]

/-- Bumping key p does not disturb the entry of a different key. -/
theorem lookupD_bumpVotes_ne (l : Votes) (p q : Proposal) (v : ℚ) (h : q ≠ p) :
    lookupD (bumpVotes l p v) q = lookupD l q := by
  induction l with
  | nil => rfl
  | cons kv rest ih =>
    by_cases hk : kv.1 = p
    · rw [show bumpVotes (kv :: rest) p v = (kv.1, kv.2 + v) :: bumpVotes rest p v by
        simp [bumpVotes, hk]]
      simpa only [lookupD, List.lookup,
        show (q == kv.1) = false by simp [hk, h]] using ih
    · rw [show bumpVotes (kv :: rest) p v = kv :: bumpVotes rest p v by
        simp [bumpVotes, hk]]
      by_cases hq : q = kv.1
      · simp [lookupD, List.lookup, hq]
      · simpa only [lookupD, List.lookup,
          show (q == kv.1) = false by simp [hq]] using ih

/-- Bumping an absent key is a no-op. -/
theorem bumpVotes_not_mem (l : Votes) (p : Proposal) (v : ℚ) (h : p ∉ voteKeys l) :
    bumpVotes l p v = l := by
  induction l with
  | nil => rfl
  | cons kv rest ih =>
    simp only [voteKeys, List.map_cons, List.mem_cons, not_or] at h
    have hk : kv.1 ≠ p := fun he => h.1 (Eq.symm he)
    simp only [bumpVotes, List.map_cons, if_neg hk]
    have := ih (by simpa [voteKeys] using h.2)
    simp only [bumpVotes] at this
    rw [this]

/-- Bumping a present key (keys duplicate-free, as in a dict) adds exactly the
bumped amount to the total. -/
theorem votesSum_bumpVotes (l : Votes) (p : Proposal) (v : ℚ)
    (hnd : (voteKeys l).Nodup) (hp : p ∈ voteKeys l) :
    votesSum (bumpVotes l p v) = votesSum l + v := by
  induction l with
  | nil => cases hp
  | cons kv rest ih =>
    simp only [voteKeys, List.map_cons, List.nodup_cons] at hnd
    by_cases hk : kv.1 = p
    · have hrest : p ∉ voteKeys rest := by
        rw [← hk]
        exact hnd.1
      rw [show bumpVotes (kv :: rest) p v = (kv.1, kv.2 + v) :: bumpVotes rest p v by
        simp [bumpVotes, hk]]
      rw [bumpVotes_not_mem rest p v hrest]
      simp [votesSum]
      ring
    · have hp' : p ∈ voteKeys rest := by
        rcases List.mem_cons.mp hp with h | h
        · exact absurd h.symm hk
        · exact h
      rw [show bumpVotes (kv :: rest) p v = kv :: bumpVotes rest p v by
        simp [bumpVotes, hk]]
      simp only [votesSum, List.map_cons, List.sum_cons] at *
      rw [ih hnd.2 hp']
      ring

/-- Popping a present key (keys duplicate-free) removes exactly its value from
the total. -/
theorem votesSum_pop (l : Votes) (p : Proposal)
    (hnd : (voteKeys l).Nodup) (hp : p ∈ voteKeys l) :
    votesSum (l.filter (fun kv => kv.1 != p)) = votesSum l - lookupD l p := by
  induction l with
  | nil => cases hp
  | cons kv rest ih =>
    simp only [voteKeys, List.map_cons, List.nodup_cons] at hnd
    by_cases hk : kv.1 = p
    · have hrest : p ∉ voteKeys rest := by
        rw [← hk]
        exact hnd.1
      have hfr : rest.filter (fun kv => kv.1 != p) = rest := by
        apply List.filter_eq_self.mpr
        intro kv2 hkv2
        have : kv2.1 ≠ p := by
          intro he
          exact hrest (he ▸ List.mem_map_of_mem (·.1) hkv2)
        simpa using this
      simp only [List.filter_cons, show (kv.1 != p) = false by simp [hk], hfr,
        lookupD, List.lookup, show (p == kv.1) = true by simp [hk]]
      simp [votesSum]
    · have hp2 : p ∈ voteKeys rest := by
        rcases List.mem_cons.mp hp with h | h
        · exact absurd h.symm hk
        · exact h
      have hrec := ih hnd.2 hp2
      rw [show (kv :: rest).filter (fun kv => kv.1 != p)
            = kv :: rest.filter (fun kv => kv.1 != p) by
          simp [List.filter_cons, hk]]
      rw [show lookupD (kv :: rest) p = lookupD rest p by
        simp [lookupD, List.lookup, show (p == kv.1) = false by simp [Ne.symm hk]]]
      simp only [votesSum, List.map_cons, List.sum_cons]
      simp only [votesSum] at hrec
      rw [hrec]
      ring

/-- The advance loop changes nothing but the cursor. -/
theorem gtpAux_frame (standing : List Proposal) :
    ∀ fuel (b : PreferenceBallot),
      (PreferenceBallot.gtpAux standing fuel b).1.preferences = b.preferences
      ∧ (PreferenceBallot.gtpAux standing fuel b).1.count = b.count
      ∧ (PreferenceBallot.gtpAux standing fuel b).1.multiplier = b.multiplier := by
  intro fuel
  induction fuel with
  | zero => intro b; exact ⟨rfl, rfl, rfl⟩
  | succ n ih =>
    intro b
    unfold PreferenceBallot.gtpAux
    split
    · exact ⟨rfl, rfl, rfl⟩
    · cases h : PreferenceBallot.current_preference { b with index := b.index + 1 } with
      | some p =>
        simp only [h]
        split
        · exact ⟨rfl, rfl, rfl⟩
        · exact ih ⟨b.preferences, b.count, b.multiplier, b.index + 1⟩
      | none =>
        simp only [h]
        exact ih ⟨b.preferences, b.count, b.multiplier, b.index + 1⟩

/-- A proposal returned by the advance loop is a standing proposal. -/
theorem gtpAux_some_mem (standing : List Proposal) :
    ∀ fuel (b b2 : PreferenceBallot) (t : Proposal),
      PreferenceBallot.gtpAux standing fuel b = (b2, some t) → t ∈ standing := by
  intro fuel
  induction fuel with
  | zero => intro b b2 t h; cases h
  | succ n ih =>
    intro b b2 t h
    unfold PreferenceBallot.gtpAux at h
    split at h
    · cases h
    · revert h
      cases hc : PreferenceBallot.current_preference { b with index := b.index + 1 } with
      | some p =>
        simp only [hc]
        split
        · intro h
          cases h
          assumption
        · exact ih _ _ _
      | none =>
        simp only [hc]
        exact ih _ _ _

/-- Splitting the ballot weight pointing at p over the head of a ballot list. -/
theorem weightAt_cons (b : PreferenceBallot) (bs : List PreferenceBallot) (p : Proposal) :
    weightAt (b :: bs) p
      = (if b.current_preference = some p then b.value else 0) + weightAt bs p := by
  by_cases h : b.current_preference = some p <;> simp [weightAt, List.filter_cons, h]

/-- Appending one ballot to a rebuilt list adds its count. -/
theorem countsOf_append_one (bs : List PreferenceBallot) (b : PreferenceBallot) :
    countsOf (bs ++ [b]) = countsOf bs + b.count := by
  simp [countsOf]

/-- The ballot loop of transfer_votes preserves the ledger keys and the
departing proposal's own entry, moves weight so that ledger total plus
exhausted total grows by exactly fraction times the weight pointing at the
departing proposal, and rebuilds the ballot list with unchanged counts. -/
theorem transfer_fold_invariant (standing : List Proposal) (p : Proposal) (f : ℚ)
    (hps : p ∉ standing) :
    ∀ (bs bs0 : List PreferenceBallot) (votes0 : Votes) (exh0 : ℚ)
      (log0 : List ((Proposal × Proposal) × ℚ)),
      (voteKeys votes0).Nodup →
      (∀ q ∈ standing, q ∈ voteKeys votes0) →
      voteKeys (bs.foldl (STVPoll.transfer_step standing p f) (bs0, votes0, exh0, log0)).2.1
          = voteKeys votes0
      ∧ votesSum (bs.foldl (STVPoll.transfer_step standing p f) (bs0, votes0, exh0, log0)).2.1
          + (bs.foldl (STVPoll.transfer_step standing p f) (bs0, votes0, exh0, log0)).2.2.1
          = votesSum votes0 + exh0 + f * weightAt bs p
      ∧ lookupD (bs.foldl (STVPoll.transfer_step standing p f) (bs0, votes0, exh0, log0)).2.1 p
          = lookupD votes0 p
      ∧ countsOf (bs.foldl (STVPoll.transfer_step standing p f) (bs0, votes0, exh0, log0)).1
          = countsOf bs0 + countsOf bs := by
  intro bs
  induction bs with
  | nil =>
    intro bs0 votes0 exh0 log0 hnd hst
    refine ⟨rfl, ?_, rfl, by simp [countsOf]⟩
    simp [weightAt]
  | cons b rest ih =>
    intro bs0 votes0 exh0 log0 hnd hst
    rw [List.foldl_cons]
    by_cases hcur : b.current_preference = some p
    · rw [show STVPoll.transfer_step standing p f (bs0, votes0, exh0, log0) b
            = (let b1 := b.decrease_value f
               match b1.get_transfer_preference standing with
               | (b2, some target) =>
                 (bs0 ++ [b2], bumpVotes votes0 target b2.value, exh0,
                  bumpCounter log0 (p, target) b2.value)
               | (b2, none) => (bs0 ++ [b2], votes0, exh0 + b2.value, log0)) by
          simp [STVPoll.transfer_step, hcur]]
      rcases hgtp : (b.decrease_value f).get_transfer_preference standing with ⟨b2, o⟩
      have hgtp2 : PreferenceBallot.gtpAux standing
          ((b.decrease_value f).preferences.length - (b.decrease_value f).index)
          (b.decrease_value f) = (b2, o) := by
        rw [← PreferenceBallot.get_transfer_preference]
        exact hgtp
      have hfr := gtpAux_frame standing
        ((b.decrease_value f).preferences.length - (b.decrease_value f).index)
        (b.decrease_value f)
      rw [hgtp2] at hfr
      have hfc : b2.count = (b.decrease_value f).count := hfr.2.1
      have hfm : b2.multiplier = (b.decrease_value f).multiplier := hfr.2.2
      have hval : b2.value = f * b.value := by
        simp only [PreferenceBallot.value, hfc, hfm, PreferenceBallot.decrease_value]
        ring
      have hcnt : b2.count = b.count := hfc
      cases o with
      | some t =>
        have ht : t ∈ standing := gtpAux_some_mem standing
          ((b.decrease_value f).preferences.length - (b.decrease_value f).index)
          (b.decrease_value f) b2 t hgtp2
        have htp : t ≠ p := fun he => hps (he ▸ ht)
        have htk : t ∈ voteKeys votes0 := hst t ht
        simp only [hgtp]
        have hnd1 : (voteKeys (bumpVotes votes0 t b2.value)).Nodup := by
          rw [voteKeys_bumpVotes]; exact hnd
        have hst1 : ∀ q ∈ standing, q ∈ voteKeys (bumpVotes votes0 t b2.value) := by
          intro q hq
          rw [voteKeys_bumpVotes]
          exact hst q hq
        obtain ⟨ihk, ihs, ihl, ihc⟩ := ih (bs0 ++ [b2]) (bumpVotes votes0 t b2.value)
          exh0 (bumpCounter log0 (p, t) b2.value) hnd1 hst1
        refine ⟨by rw [ihk, voteKeys_bumpVotes], ?_, ?_, ?_⟩
        · rw [ihs, votesSum_bumpVotes votes0 t b2.value hnd htk, weightAt_cons,
            if_pos hcur, hval]
          ring
        · rw [ihl, lookupD_bumpVotes_ne votes0 t p b2.value (Ne.symm htp)]
        · rw [ihc, countsOf_append_one, hcnt]
          simp [countsOf]
          omega
      | none =>
        simp only [hgtp]
        obtain ⟨ihk, ihs, ihl, ihc⟩ := ih (bs0 ++ [b2]) votes0 (exh0 + b2.value) log0 hnd hst
        refine ⟨ihk, ?_, ihl, ?_⟩
        · rw [ihs, weightAt_cons, if_pos hcur, hval]
          ring
        · rw [ihc, countsOf_append_one, hcnt]
          simp [countsOf]
          omega
    · rw [show STVPoll.transfer_step standing p f (bs0, votes0, exh0, log0) b
            = (bs0 ++ [b], votes0, exh0, log0) by
          simp [STVPoll.transfer_step, hcur]]
      obtain ⟨ihk, ihs, ihl, ihc⟩ := ih (bs0 ++ [b]) votes0 exh0 log0 hnd hst
      refine ⟨ihk, ?_, ihl, ?_⟩
      · rw [ihs, weightAt_cons, if_neg hcur]
        ring
      · rw [ihc, countsOf_append_one]
        simp [countsOf]
        omega

/-- The seeding fold of initial_votes adds every ballot's value to the ledger
total, provided each current preference is a ledger key (keys duplicate-free). -/
theorem initial_fold_sum :
    ∀ (bs : List PreferenceBallot) (votes0 : Votes),
      (voteKeys votes0).Nodup →
      (∀ b ∈ bs, ∃ q, b.current_preference = some q ∧ q ∈ voteKeys votes0) →
      votesSum (bs.foldl (fun v b =>
          match b.current_preference with
          | some p => bumpVotes v p b.value
          | none => v) votes0)
        = votesSum votes0 + ((bs.map (·.value)).sum) := by
  intro bs
  induction bs with
  | nil =>
    intro votes0 hnd hmem
    simp
  | cons b rest ih =>
    intro votes0 hnd hmem
    obtain ⟨q, hq, hqk⟩ := hmem b (List.mem_cons_self b rest)
    rw [List.foldl_cons]
    simp only [hq]
    have hnd1 : (voteKeys (bumpVotes votes0 q b.value)).Nodup := by
      rw [voteKeys_bumpVotes]; exact hnd
    have hmem1 : ∀ b2 ∈ rest, ∃ p, b2.current_preference = some p
        ∧ p ∈ voteKeys (bumpVotes votes0 q b.value) := by
      intro b2 hb2
      obtain ⟨p, hp1, hp2⟩ := hmem b2 (List.mem_cons_of_mem b hb2)
      exact ⟨p, hp1, by rw [voteKeys_bumpVotes]; exact hp2⟩
    rw [ih (bumpVotes votes0 q b.value) hnd1 hmem1,
      votesSum_bumpVotes votes0 q b.value hnd hqk]
    simp
    ring

/-- Ballots whose multiplier is still one carry exactly their count. -/
theorem values_eq_counts (bs : List PreferenceBallot)
    (h : ∀ b ∈ bs, b.multiplier = 1) :
    (bs.map (·.value)).sum = (countsOf bs : ℚ) := by
  induction bs with
  | nil => simp [countsOf]
  | cons b rest ih =>
    have hb := h b (List.mem_cons_self b rest)
    have hrest := ih (fun b2 hb2 => h b2 (List.mem_cons_of_mem b hb2))
    simp only [List.map_cons, List.sum_cons, countsOf] at *
    rw [hrest, PreferenceBallot.value, hb]
    push_cast
    ring

/-- C1 (amended): the conservation law holds after the initial seeding and is
preserved by every full-weight transfer (fraction one, the exclusion path),
but a transfer with fraction f moves the ledger-plus-exhausted total down by
exactly (1 - f) times the departing proposal's ledger entry, so Scottish
surplus transfers (fraction strictly below one) break the claimed equality
(see the counterexample). Hypotheses: ledger keys are duplicate-free (a dict),
standing proposals are ledger keys, the departing proposal is a non-standing
ledger key, and its ledger entry is accurate (equals the live ballot weight
pointing at it). -/
theorem c1_conservation (s : STVPoll) (p : Proposal) (f : ℚ)
    (hnd : (voteKeys s.votes).Nodup)
    (hst : ∀ q ∈ s.standing_proposals, q ∈ voteKeys s.votes)
    (hps : p ∉ s.standing_proposals)
    (hp : p ∈ voteKeys s.votes)
    (hacc : lookupD s.votes p = weightAt s.ballots p) :
    votesSum (s.transfer_votes p f).votes + (s.transfer_votes p f).result.exhausted
        = votesSum s.votes + s.result.exhausted - (1 - f) * lookupD s.votes p
    ∧ (s.transfer_votes p f).ballot_count = s.ballot_count
    ∧ (s.transfer_votes p f).result.empty_ballot_count = s.result.empty_ballot_count
    ∧ (f = 1 → conservedSum s = totalWeight s →
        conservedSum (s.transfer_votes p f) = totalWeight (s.transfer_votes p f))
    ∧ ((votesSum s.votes = 0 ∧ s.result.exhausted = 0
        ∧ (∀ b ∈ s.ballots, b.multiplier = 1)
        ∧ (∀ b ∈ s.ballots, ∃ q, b.current_preference = some q ∧ q ∈ voteKeys s.votes)) →
        conservedSum s.initial_votes = totalWeight s.initial_votes) := by
  obtain ⟨hk, hsum, hlook, hcount⟩ := transfer_fold_invariant s.standing_proposals p f hps
    s.ballots [] s.votes s.result.exhausted [] hnd hst
  have hmain : votesSum (s.transfer_votes p f).votes + (s.transfer_votes p f).result.exhausted
      = votesSum s.votes + s.result.exhausted - (1 - f) * lookupD s.votes p := by
    show votesSum ((s.ballots.foldl
        (STVPoll.transfer_step s.standing_proposals p f)
        ([], s.votes, s.result.exhausted, [])).2.1.filter (fun kv => kv.1 != p))
      + (s.ballots.foldl (STVPoll.transfer_step s.standing_proposals p f)
        ([], s.votes, s.result.exhausted, [])).2.2.1
      = votesSum s.votes + s.result.exhausted - (1 - f) * lookupD s.votes p
    rw [votesSum_pop _ p (by rw [hk]; exact hnd) (by rw [hk]; exact hp), hlook]
    rw [← hacc] at hsum
    linarith [hsum]
  have hbc : (s.transfer_votes p f).ballot_count = s.ballot_count := by
    show countsOf (s.ballots.foldl (STVPoll.transfer_step s.standing_proposals p f)
        ([], s.votes, s.result.exhausted, [])).1 = countsOf s.ballots
    rw [hcount]
    simp [countsOf]
  refine ⟨hmain, hbc, rfl, ?_, ?_⟩
  · intro hf hcons
    have hempty : (s.transfer_votes p f).result.empty_ballot_count
        = s.result.empty_ballot_count := rfl
    simp only [conservedSum, totalWeight, hempty, hbc] at *
    rw [hmain, hf]
    simp only [sub_self, zero_mul, sub_zero]
    linarith [hcons]
  · rintro ⟨hz, he, hm, hheads⟩
    have hseed := initial_fold_sum s.ballots s.votes hnd hheads
    have hic : s.initial_votes.result.exhausted = s.result.exhausted := rfl
    have hie : s.initial_votes.result.empty_ballot_count
        = s.result.empty_ballot_count := rfl
    have hib : s.initial_votes.ballot_count = s.ballot_count := rfl
    simp only [conservedSum, totalWeight, hic, hie, hib]
    show votesSum (s.ballots.foldl (fun v b =>
        match b.current_preference with
        | some p => bumpVotes v p b.value
        | none => v) s.votes) + s.result.exhausted + s.result.empty_ballot_count
      = (s.ballot_count : ℚ) + s.result.empty_ballot_count
    rw [hseed, hz, he, values_eq_counts s.ballots hm]
    show (0 : ℚ) + (countsOf s.ballots : ℚ) + 0 + s.result.empty_ballot_count
      = (countsOf s.ballots : ℚ) + s.result.empty_ballot_count
    ring

/-- C1 witness: the mid-election Scottish poll conservationPoll satisfies every
hypothesis, a full transfer of proposal 1 preserves conservation, and seeding
its initial votes satisfies conservation. -/
theorem c1_conservation_witness :
    (voteKeys conservationPoll.votes).Nodup
    ∧ (∀ q ∈ conservationPoll.standing_proposals, q ∈ voteKeys conservationPoll.votes)
    ∧ (1 : Proposal) ∉ conservationPoll.standing_proposals
    ∧ (1 : Proposal) ∈ voteKeys conservationPoll.votes
    ∧ lookupD conservationPoll.votes 1 = weightAt conservationPoll.ballots 1
    ∧ (conservedSum conservationPoll = totalWeight conservationPoll →
        conservedSum (conservationPoll.transfer_votes 1 1)
          = totalWeight (conservationPoll.transfer_votes 1 1)) := by
  have h := c1_conservation conservationPoll 1 1 (by decide) (by decide) (by decide)
    (by decide) (by decide)
  exact ⟨by decide, by decide, by decide, by decide, by decide, h.2.2.2.1 rfl⟩

/-- C1 counterexample: conservation holds on conservationPoll, the Scottish
round performs the surplus transfer of proposal 1 (fraction 1/4) without
raising, and afterwards the conserved sum is 1 while the total ballot weight
is 4: the last transfer-log snapshot violates the claimed equality. -/
theorem c1_surplus_transfer_breaks_conservation :
    conservedSum conservationPoll = totalWeight conservationPoll
    ∧ (ScottishSTV.calculate_round trivialConfig 9 conservationPoll).2 = none
    ∧ conservedSum (ScottishSTV.calculate_round trivialConfig 9 conservationPoll).1
        ≠ totalWeight (ScottishSTV.calculate_round trivialConfig 9 conservationPoll).1
    ∧ ((ScottishSTV.calculate_round trivialConfig 9
          conservationPoll).1.result.transfer_log.getLast?).map
        (fun item => votesSum item.current_votes + item.exhausted_votes) = some 1
    ∧ totalWeight (ScottishSTV.calculate_round trivialConfig 9 conservationPoll).1 = 4 := by
  refine ⟨by decide, by decide, by decide, by decide, by decide⟩

/-- The cursor never moves backwards through the advance loop. -/
theorem gtpAux_index_le (standing : List Proposal) :
    ∀ fuel (b : PreferenceBallot), b.index ≤ (PreferenceBallot.gtpAux standing fuel b).1.index := by
  intro fuel
  induction fuel with
  | zero => intro b; simp [PreferenceBallot.gtpAux]
  | succ n ih =>
    intro b
    unfold PreferenceBallot.gtpAux
    split
    · simp
    · cases h : PreferenceBallot.current_preference { b with index := b.index + 1 } with
      | some p =>
        simp only [h]
        split
        · simp
        · exact le_trans (Nat.le_succ _)
            (ih ⟨b.preferences, b.count, b.multiplier, b.index + 1⟩)
      | none =>
        simp only [h]
        exact le_trans (Nat.le_succ _)
          (ih ⟨b.preferences, b.count, b.multiplier, b.index + 1⟩)

/-- An exhausted ballot is returned untouched by the advance loop. -/
theorem gtpAux_exhausted (standing : List Proposal) (fuel : ℕ) (b : PreferenceBallot)
    (h : b.exhausted = true) : PreferenceBallot.gtpAux standing fuel b = (b, none) := by
  cases fuel with
  | zero => rfl
  | succ n =>
    unfold PreferenceBallot.gtpAux
    simp [h]

/-- C6: ballot lifecycle monotonicity. Scaling by a fraction in the unit
interval never increases the multiplier and never moves the cursor; the advance
loop only moves the cursor forward; and an exhausted ballot stays exhausted and
inert: its current preference is none, get_transfer_preference hands it back
unchanged with none, and the transfer loop of transfer_votes passes over it
without touching it, the votes, the exhausted total or the transfer counter. -/
theorem c6_ballot_monotonicity (b : PreferenceBallot) (standing : List Proposal)
    (f : ℚ) (pr : Proposal)
    (acc : List PreferenceBallot × Votes × ℚ × List ((Proposal × Proposal) × ℚ))
    (h0 : 0 ≤ f) (h1 : f ≤ 1) (hm : 0 ≤ b.multiplier) :
    (b.decrease_value f).multiplier ≤ b.multiplier
    ∧ (b.decrease_value f).index = b.index
    ∧ (b.decrease_value f).preferences = b.preferences
    ∧ b.index ≤ (b.get_transfer_preference standing).1.index
    ∧ (b.exhausted = true →
        b.current_preference = none
        ∧ b.get_transfer_preference standing = (b, none)
        ∧ STVPoll.transfer_step standing pr f acc b = (acc.1 ++ [b], acc.2)) := by
  refine ⟨?_, rfl, rfl, gtpAux_index_le standing _ b, ?_⟩
  · calc b.multiplier * f ≤ b.multiplier * 1 := mul_le_mul_of_nonneg_left h1 hm
    _ = b.multiplier := mul_one _
  · intro hx
    have hcur : b.current_preference = none := by
      simp only [PreferenceBallot.current_preference]
      refine List.get?_eq_none.mpr ?_
      simpa [PreferenceBallot.exhausted] using hx
    refine ⟨hcur, gtpAux_exhausted standing _ b hx, ?_⟩
    obtain ⟨bs, votes, exh, log⟩ := acc
    simp [STVPoll.transfer_step, hcur]

/-- C6 witness: a concrete exhausted two-preference ballot with multiplier one
and cursor past the end, scaled by one half. -/
theorem c6_ballot_monotonicity_witness :
    ((⟨[5, 6], 1, 1, 2⟩ : PreferenceBallot).decrease_value (1/2)).multiplier
        ≤ (⟨[5, 6], 1, 1, 2⟩ : PreferenceBallot).multiplier
    ∧ (⟨[5, 6], 1, 1, 2⟩ : PreferenceBallot).current_preference = none
    ∧ (⟨[5, 6], 1, 1, 2⟩ : PreferenceBallot).get_transfer_preference [5, 6]
        = (⟨[5, 6], 1, 1, 2⟩, none) := by
  have h := c6_ballot_monotonicity ⟨[5, 6], 1, 1, 2⟩ [5, 6] (1/2) 9 ([], [], 0, [])
    (by norm_num) (by norm_num) (by norm_num)
  exact ⟨h.1, (h.2.2.2.2 rfl).1, (h.2.2.2.2 rfl).2.1⟩

/-- Pulling the element at any index to the front is a permutation. -/
theorem get_cons_eraseIdx_perm (l : List Proposal) (i : Fin l.length) :
    (l.get i :: l.eraseIdx i).Perm l := by
  rw [List.eraseIdx_eq_take_drop_succ]
  have h1 : l.get i :: l.drop (i + 1) = l.drop i := by
    have := List.getElem_cons_drop l i i.isLt
    simpa [List.get_eq_getElem] using this
  have h2 : l.take i ++ l.get i :: l.drop (i + 1) = l := by
    rw [h1]
    exact List.take_append_drop i l
  have h3 : (l.get i :: (l.take i ++ l.drop (i + 1))).Perm
      (l.take i ++ l.get i :: l.drop (i + 1)) := List.perm_middle.symm
  rw [h2] at h3
  exact h3

/-- The shuffle keeps exactly the elements of its input, with multiplicity. -/
theorem shuffle_perm : ∀ (seeds : List ℕ) (l : List Proposal), (shuffle seeds l).Perm l := by
  intro seeds
  induction seeds with
  | nil =>
    intro l
    cases l <;> simp [shuffle]
  | cons k ks ih =>
    intro l
    cases l with
    | nil => simp [shuffle]
    | cons x xs =>
      simp only [shuffle]
      exact ((ih _).cons _).trans (get_cons_eraseIdx_perm (x :: xs) _)

/-- C9: construction shuffles the stored proposal list, so a successfully
built poll stores a permutation of the caller-supplied proposals (same
elements, same multiplicity), and the proposals tuple of the result dictionary
is exactly that stored list, hence also a permutation of the input. -/
theorem c9_constructor_shuffles (seed : List ℕ) (seats : ℕ) (proposals : List Proposal)
    (pedantic : Bool) (s : STVPoll) (cfg : Config)
    (h : STVPoll.init seed seats proposals pedantic = .ok s) :
    s.proposals.Perm proposals
    ∧ (s.as_dict cfg).1.proposals = s.proposals
    ∧ (s.as_dict cfg).1.proposals.Perm proposals := by
  have hs : s.proposals = shuffle seed proposals := by
    unfold STVPoll.init at h
    split at h
    · exact absurd h (by simp)
    · cases h
      rfl
  have hperm : s.proposals.Perm proposals := hs ▸ shuffle_perm seed proposals
  exact ⟨hperm, rfl, hperm⟩

/-- C9 witness: with shuffle seed [1], the proposals [10, 20] are stored in the
order [20, 10] — a permutation that differs from the input order — and the
result dictionary exposes that stored order. -/
theorem c9_constructor_shuffles_witness :
    STVPoll.init [1] 1 [10, 20] false = .ok shuffledPoll
    ∧ shuffledPoll.proposals.Perm [10, 20]
    ∧ (shuffledPoll.as_dict trivialConfig).1.proposals = shuffledPoll.proposals
    ∧ shuffledPoll.proposals ≠ [10, 20] := by
  have h0 : STVPoll.init [1] 1 [10, 20] false = .ok shuffledPoll := rfl
  have h := c9_constructor_shuffles [1] 1 [10, 20] false shuffledPoll trivialConfig h0
  exact ⟨h0, h.1, h.2.1, by decide⟩

/-- Python max and min return one of the supplied items. -/
theorem minmax_mem (items : List Proposal) (key : Proposal → ℚ) (high : Bool)
    (p : Proposal) (h : minmax items key high = some p) : p ∈ items := by
  cases items with
  | nil => cases h
  | cons x xs =>
    simp only [minmax, Option.some.injEq] at h
    subst h
    have : ∀ (ys : List Proposal) (a : Proposal),
        ys.foldl (fun acc y =>
          if high then (if key acc < key y then y else acc)
          else (if key y < key acc then y else acc)) a ∈ a :: ys := by
      intro ys
      induction ys with
      | nil => intro a; simp
      | cons y ys2 ih =>
        intro a
        rw [List.foldl_cons]
        have step : (if high then (if key a < key y then y else a)
            else (if key y < key a then y else a)) = a
            ∨ (if high then (if key a < key y then y else a)
            else (if key y < key a then y else a)) = y := by
          split_ifs <;> simp
        rcases step with hs | hs <;> rw [hs]
        · rcases List.mem_cons.mp (ih a) with h2 | h2
          · rw [h2]
            simp
          · simp [h2]
        · exact List.mem_cons_of_mem a (ih y)
    exact this xs x

/-- Under the tiebreaker contract, resolve_tie returns one of the tied
proposals. -/
theorem resolve_tie_mem (s : STVPoll) :
    ∀ (tbs : List Tiebreaker) (ties : List Proposal) (most : Bool)
      (p : Proposal) (m : SelectionMethod),
      (∀ tb ∈ tbs, ∀ (s2 : STVPoll) (ts : List Proposal) (mo : Bool),
        ∀ x ∈ tb.run s2 ts mo, x ∈ ts) →
      resolve_tie s tbs ties most = .ok (p, m) → p ∈ ties := by
  intro tbs
  induction tbs with
  | nil =>
    intro ties most p m _ h
    cases h
  | cons tb rest ih =>
    intro ties most p m hsh h
    have hhead := hsh tb (List.mem_cons_self tb rest)
    have hrest : ∀ tb2 ∈ rest, ∀ (s2 : STVPoll) (ts : List Proposal) (mo : Bool),
        ∀ x ∈ tb2.run s2 ts mo, x ∈ ts :=
      fun tb2 htb2 => hsh tb2 (List.mem_cons_of_mem tb htb2)
    rw [resolve_tie] at h
    revert h
    cases hrun : tb.run s ties most with
    | nil =>
      intro h
      exact hhead s ties most p (hrun ▸ ih [] most p m hrest h)
    | cons q qs =>
      cases qs with
      | nil =>
        intro h
        cases h
        exact hhead s ties most p (by rw [hrun]; exact List.mem_singleton.mpr rfl)
      | cons q2 qs2 =>
        intro h
        exact hhead s ties most p (hrun ▸ ih (q :: q2 :: qs2) most p m hrest h)

/-- The tied set produced by get_ties is drawn from the sample. -/
theorem get_ties_subset (votes : Votes) (sample : List Proposal) (proposal : Proposal)
    (ties : List Proposal) (h : get_ties votes sample proposal = some ties) :
    ∀ x ∈ ties, x ∈ sample := by
  intro x hx
  simp only [get_ties] at h
  split at h
  · cases h
    exact (List.mem_filter.mp hx).1
  · cases h

/-- When sampling the standing proposals, get_proposal selects a standing
proposal (under the tiebreaker contract). -/
theorem get_proposal_mem_standing (cfg : Config) (s : STVPoll) (most : Bool)
    (p : Proposal) (m : SelectionMethod)
    (hsh : TiebreakersShrink cfg)
    (h : s.get_proposal cfg most s.standing_proposals = .ok (p, m)) :
    p ∈ s.standing_proposals := by
  rw [STVPoll.get_proposal] at h
  revert h
  cases hmm : minmax s.standing_proposals s.get_votes most with
  | none => intro h; cases h
  | some q =>
    simp only
    cases hts : get_ties s.votes s.standing_proposals q with
    | none =>
      intro h
      cases h
      exact minmax_mem _ _ _ _ hmm
    | some ties =>
      intro h
      exact get_ties_subset s.votes s.standing_proposals q ties hts p
        (resolve_tie_mem s cfg.tiebreakers ties most p m hsh h)

/-- Reading the quota property touches nothing but the quota cache. -/
theorem quota_frame (cfg : Config) (s : STVPoll) :
    (s.quota cfg).2.proposals = s.proposals
    ∧ (s.quota cfg).2.seats = s.seats
    ∧ (s.quota cfg).2.excluded = s.excluded
    ∧ (s.quota cfg).2.ballots = s.ballots
    ∧ (s.quota cfg).2.votes = s.votes
    ∧ (s.quota cfg).2.result = s.result
    ∧ (s.quota cfg).2.pedantic_order = s.pedantic_order
    ∧ (s.quota cfg).2.standing_proposals = s.standing_proposals
    ∧ (s.quota cfg).2.seats_to_fill = s.seats_to_fill := by
  cases h : s.quota_cache with
  | some q =>
    simp [STVPoll.quota, h]
  | none =>
    simp [STVPoll.quota, h, STVPoll.standing_proposals, STVPoll.seats_to_fill]

/-- Filtering out a present element strictly shortens a list. -/
theorem length_filter_ne_lt (l : List Proposal) (p : Proposal) (hp : p ∈ l) :
    (l.filter (fun q => q != p)).length < l.length := by
  induction l with
  | nil => cases hp
  | cons x xs ih =>
    by_cases hx : x = p
    · simp only [List.filter_cons, show (x != p) = false by simp [hx]]
      exact Nat.lt_succ_of_le (List.length_filter_le _ _)
    · rcases List.mem_cons.mp hp with h | h
      · exact absurd h.symm hx
      · simp only [List.filter_cons, show (x != p) = true by simp [hx]]
        simpa using Nat.succ_lt_succ (ih h)

/-- Electing p removes exactly p from the standing proposals. -/
theorem standing_after_elect (s : STVPoll) (p : Proposal) (m : SelectionMethod) :
    (s.elect p m).standing_proposals = s.standing_proposals.filter (fun q => q != p) := by
  show s.proposals.filter (fun q =>
      !s.excluded.contains q && !((s.result.elected ++ [p]).contains q))
    = (s.proposals.filter (fun q =>
        !s.excluded.contains q && !s.result.elected.contains q)).filter (fun q => q != p)
  rw [List.filter_filter]
  apply List.filter_congr
  intro q _
  by_cases h1 : q ∈ s.excluded <;> by_cases h2 : q ∈ s.result.elected
    <;> by_cases h3 : q = p <;> simp [h1, h2, h3]

/-- Excluding p and transferring its votes removes exactly p from the standing
proposals. -/
theorem standing_after_exclude_transfer (s : STVPoll) (p : Proposal)
    (m : SelectionMethod) (f : ℚ) :
    ((s.exclude p m).transfer_votes p f).standing_proposals
      = s.standing_proposals.filter (fun q => q != p) := by
  show s.proposals.filter (fun q =>
      !((s.excluded ++ [p]).contains q) && !s.result.elected.contains q)
    = (s.proposals.filter (fun q =>
        !s.excluded.contains q && !s.result.elected.contains q)).filter (fun q => q != p)
  rw [List.filter_filter]
  apply List.filter_congr
  intro q _
  by_cases h1 : q ∈ s.excluded <;> by_cases h2 : q ∈ s.result.elected
    <;> by_cases h3 : q = p <;> simp [h1, h2, h3]

/-- A normally completing IRV round either elects one proposal (elected grows
by one, standing does not grow) or excludes one of at least two standing
proposals (elected unchanged, standing strictly shrinks); the seat count never
changes. -/
theorem irv_round_step (cfg : Config) (s s1 : STVPoll) (hsh : TiebreakersShrink cfg)
    (h : IRV.calculate_round cfg s = (s1, none)) :
    s1.seats = s.seats
    ∧ ((s1.result.elected.length = s.result.elected.length + 1
          ∧ s1.standing_proposals.length ≤ s.standing_proposals.length)
       ∨ (s1.result.elected = s.result.elected
          ∧ s1.standing_proposals.length < s.standing_proposals.length
          ∧ 2 ≤ s.standing_proposals.length)) := by
  obtain ⟨hqp, hqs, hqe, hqb, hqv, hqr, hqpo, hqst, hqtf⟩ := quota_frame cfg s
  rw [IRV.calculate_round] at h
  revert h
  cases hf : (s.quota cfg).2.standing_proposals.find?
      (fun p => decide ((((s.quota cfg).1 : ℚ)) ≤ (s.quota cfg).2.get_votes p)) with
  | some p =>
    intro h
    have hs1 : s1 = (s.quota cfg).2.elect p .Direct := (Prod.mk.injEq _ _ _ _ ▸ h).1.symm
    constructor
    · rw [hs1]
      show (s.quota cfg).2.seats = s.seats
      exact hqs
    · left
      constructor
      · rw [hs1]
        show ((s.quota cfg).2.result.elected ++ [p]).length = s.result.elected.length + 1
        rw [hqr]
        simp
      · rw [hs1, standing_after_elect, hqst]
        exact le_trans (List.length_filter_le _ _) (le_refl _)
  | none =>
    simp only
    split
    · intro h
      cases h
    · cases hg : (s.quota cfg).2.get_proposal cfg false (s.quota cfg).2.standing_proposals with
      | error e =>
        intro h
        cases h
      | ok pm =>
        obtain ⟨p, m⟩ := pm
        intro h
        have hs1 : s1 = ((s.quota cfg).2.exclude p m).transfer_votes p 1 :=
          (Prod.mk.injEq _ _ _ _ ▸ h).1.symm
        have hpst : p ∈ (s.quota cfg).2.standing_proposals :=
          get_proposal_mem_standing cfg (s.quota cfg).2 false p m hsh hg
        have hne : (s.quota cfg).2.standing_proposals.length ≠ 1 := by assumption
        have hpos : 1 ≤ (s.quota cfg).2.standing_proposals.length :=
          List.length_pos.mpr (List.ne_nil_of_mem hpst)

        refine ⟨?_, Or.inr ⟨?_, ?_, ?_⟩⟩
        · rw [hs1]
          show (s.quota cfg).2.seats = s.seats
          exact hqs
        · rw [hs1]
          show (s.quota cfg).2.result.elected = s.result.elected
          rw [hqr]
        · rw [hs1, standing_after_exclude_transfer, hqst]
          rw [hqst] at hpst
          exact length_filter_ne_lt _ p hpst
        · rw [← hqst]
          omega

/-- With fuel at least the standing-proposal count (and at least one), the IRV
round loop never exhausts its fuel: it reaches a filled seat or a raising
round first. -/
theorem irv_loop_terminates (cfg : Config) (hsh : TiebreakersShrink cfg) :
    ∀ (fuel : ℕ) (s : STVPoll), s.seats = 1 → s.result.elected = [] →
      s.standing_proposals.length ≤ fuel → 1 ≤ fuel →
      run_rounds (IRV.calculate_round cfg) fuel s ≠ none := by
  intro fuel
  induction fuel with
  | zero =>
    intro s _ _ _ h1
    exact absurd h1 (by omega)
  | succ n ih =>
    intro s hseats helected hst _
    rw [run_rounds.eq_def]
    dsimp only
    by_cases h0 : s.seats_to_fill = 0
    · simp [h0]
    · rw [if_neg h0]
      rcases hr : IRV.calculate_round cfg s with ⟨s1, e⟩
      cases e with
      | some err => simp
      | none =>
        simp only
        obtain ⟨hs, hcase⟩ := irv_round_step cfg s s1 hsh hr
        rcases hcase with ⟨hel, hstle⟩ | ⟨hel, hstlt, hst2⟩
        · have hlen : s.result.elected.length = 0 := by rw [helected]; rfl
          have hz : s1.seats_to_fill = 0 := by
            simp only [STVPoll.seats_to_fill, hs, hseats, hel, hlen]
            omega
          rw [run_rounds.eq_def]
          dsimp only
          rw [if_pos hz]
          simp
        · have hel2 : s1.result.elected = [] := hel.trans helected
          have hseats2 : s1.seats = 1 := hs.trans hseats
          exact ih s1 hseats2 hel2 (by omega) (by omega)

/-- C8 (amended): for IRV, every normally completing round strictly reduces
seats_to_fill or the standing-proposal count, and the round loop of
perform_calculation finishes within (number of proposals) rounds. For
Scottish STV both parts of the original claim fail: a surplus-transfer round
reduces neither quantity and the loop can need more than (number of
proposals) iterations (see the counterexample). -/
theorem c8_termination_bound (cfg : Config) (s s1 : STVPoll)
    (hsh : TiebreakersShrink cfg) (hseats : s.seats = 1)
    (helected : s.result.elected = []) (hn : 1 ≤ s.proposals.length) :
    (IRV.calculate_round cfg s = (s1, none) →
      s1.seats_to_fill < s.seats_to_fill
      ∨ s1.standing_proposals.length < s.standing_proposals.length)
    ∧ run_rounds (IRV.calculate_round cfg) s.proposals.length s ≠ none := by
  constructor
  · intro h
    obtain ⟨hs, hcase⟩ := irv_round_step cfg s s1 hsh h
    rcases hcase with ⟨hel, _⟩ | ⟨_, hlt, _⟩
    · left
      simp only [STVPoll.seats_to_fill, hs, hel]
      omega
    · right
      exact hlt
  · refine irv_loop_terminates cfg hsh _ s hseats helected ?_ hn
    exact List.length_filter_le _ _

/-- C8 witness: a one-candidate, one-ballot IRV election (no tiebreakers)
terminates within one round, its proposal count. -/
theorem c8_termination_bound_witness :
    TiebreakersShrink irvPlainConfig
    ∧ c8irvPoll.seats = 1
    ∧ c8irvPoll.result.elected = []
    ∧ 1 ≤ c8irvPoll.proposals.length
    ∧ run_rounds (IRV.calculate_round irvPlainConfig) c8irvPoll.proposals.length c8irvPoll
        ≠ none := by
  have hsh : TiebreakersShrink irvPlainConfig := by
    intro tb htb
    exact absurd htb (List.not_mem_nil tb)
  have h := c8_termination_bound irvPlainConfig c8irvPoll c8irvPoll hsh rfl rfl (by decide)
  exact ⟨hsh, rfl, rfl, by decide, h.2⟩

/-- C8 counterexample: the two-proposal Scottish election c8scotPoll (one
ballot 10 x [1, 2], seats 2, droop quota 4) needs three rounds — fuel 2 (the
proposal count) runs out, fuel 3 completes with all seats filled — and its
second round, the surplus transfer of proposal 1, completes normally while
changing neither seats_to_fill nor the standing-proposal count. -/
theorem c8_scottish_round_bound_fails :
    run_rounds (ScottishSTV.calculate_round scottishHistoryConfig 9) 2
        c8scotPoll.initial_votes = none
    ∧ (run_rounds (ScottishSTV.calculate_round scottishHistoryConfig 9) 3
        c8scotPoll.initial_votes).map (fun r => (r.1.seats_to_fill, r.2))
      = some (0, none)
    ∧ c8scotPoll.proposals.length = 2
    ∧ (ScottishSTV.calculate_round scottishHistoryConfig 9
        (ScottishSTV.calculate_round scottishHistoryConfig 9
          c8scotPoll.initial_votes).1).2 = none
    ∧ (ScottishSTV.calculate_round scottishHistoryConfig 9
        (ScottishSTV.calculate_round scottishHistoryConfig 9
          c8scotPoll.initial_votes).1).1.seats_to_fill
      = (ScottishSTV.calculate_round scottishHistoryConfig 9
          c8scotPoll.initial_votes).1.seats_to_fill
    ∧ (ScottishSTV.calculate_round scottishHistoryConfig 9
        (ScottishSTV.calculate_round scottishHistoryConfig 9
          c8scotPoll.initial_votes).1).1.standing_proposals.length
      = (ScottishSTV.calculate_round scottishHistoryConfig 9
          c8scotPoll.initial_votes).1.standing_proposals.length
    ∧ (ScottishSTV.calculate_round scottishHistoryConfig 9
        c8scotPoll.initial_votes).1.seats_to_fill ≠ 0 := by
  refine ⟨by decide, by decide, by decide, by decide, by decide, by decide, by decide⟩

/-- With pedantic order disabled, elect_multiple never raises and preserves
the pedantic flag and the seat count. -/
theorem elect_multiple_nonpedantic (cfg : Config) (fuel : ℕ) (t : STVPoll)
    (ps : List Proposal) (m : SelectionMethod) (hpd : t.pedantic_order = false) :
    (STVPoll.elect_multiple cfg fuel t ps m).2 = none
    ∧ (STVPoll.elect_multiple cfg fuel t ps m).1.pedantic_order = t.pedantic_order
    ∧ (STVPoll.elect_multiple cfg fuel t ps m).1.seats = t.seats := by
  unfold STVPoll.elect_multiple
  split
  · exact ⟨rfl, rfl, rfl⟩
  · have hcond : ¬(({ t with result := t.result.new_round t.current_votes } :
        STVPoll).pedantic_order = true) := by
      show ¬(t.pedantic_order = true)
      rw [hpd]
      simp
    rw [if_neg hcond]
    exact ⟨rfl, rfl, rfl⟩

/-- With pedantic order disabled, a Scottish round preserves the pedantic flag
and seat count, and when it raises, the state it leaves behind has its elected
list unchanged. -/
theorem scottish_round_effects (cfg : Config) (fuel : ℕ) (s s1 : STVPoll)
    (o : Option PyErr) (hpd : s.pedantic_order = false)
    (h : ScottishSTV.calculate_round cfg fuel s = (s1, o)) :
    s1.pedantic_order = s.pedantic_order
    ∧ s1.seats = s.seats
    ∧ (∀ e, o = some e → s1.result.elected = s.result.elected) := by
  obtain ⟨hqp, hqs, hqe, hqb, hqv, hqr, hqpo, hqst, hqtf⟩ := quota_frame cfg s
  have hpd2 : (s.quota cfg).2.pedantic_order = false := hqpo.trans hpd
  rw [ScottishSTV.calculate_round] at h
  dsimp only at h
  split at h
  all_goals try split at h
  all_goals try split at h
  all_goals try split at h
  all_goals first
    | (cases h
       exact ⟨hqpo, hqs, fun e he => Option.noConfusion he⟩)
    | (cases h
       refine ⟨hqpo, hqs, fun e he => ?_⟩
       rw [hqr])
    | (cases h
       refine ⟨?_, ?_, fun e he => Option.noConfusion he⟩
       · show ((s.quota cfg).2.quota cfg).2.pedantic_order = s.pedantic_order
         exact ((quota_frame cfg (s.quota cfg).2).2.2.2.2.2.2.1).trans hqpo
       · show ((s.quota cfg).2.quota cfg).2.seats = s.seats
         exact ((quota_frame cfg (s.quota cfg).2).2.1).trans hqs)
    | (obtain ⟨hn, hp2, hs2⟩ := elect_multiple_nonpedantic cfg fuel (s.quota cfg).2 _ _ hpd2
       rw [h] at hn hp2 hs2
       have ho : o = none := hn
       subst ho
       refine ⟨?_, ?_, fun e he => Option.noConfusion he⟩
       · exact (show s1.pedantic_order = _ from hp2).trans hqpo
       · exact (show s1.seats = _ from hs2).trans hqs)

/-- An IRV round preserves the pedantic flag and seat count, and when it
raises, the state it leaves behind has its elected list unchanged. -/
theorem irv_round_effects (cfg : Config) (s s1 : STVPoll) (o : Option PyErr)
    (h : IRV.calculate_round cfg s = (s1, o)) :
    s1.pedantic_order = s.pedantic_order
    ∧ s1.seats = s.seats
    ∧ (∀ e, o = some e → s1.result.elected = s.result.elected) := by
  obtain ⟨hqp, hqs, hqe, hqb, hqv, hqr, hqpo, hqst, hqtf⟩ := quota_frame cfg s
  rw [IRV.calculate_round] at h
  try dsimp only at h
  split at h
  all_goals try split at h
  all_goals try split at h
  all_goals first
    | (cases h
       exact ⟨hqpo, hqs, fun e he => Option.noConfusion he⟩)
    | (cases h
       refine ⟨hqpo, hqs, fun e he => ?_⟩
       rw [hqr])

/-- If every round preserves an invariant on normal completion, preserves the
elected list and the seat count when raising, then a loop run that ends in a
raise ends on an incomplete result: the loop only enters a round while seats
remain to fill. -/
theorem run_rounds_raise_incomplete (round : STVPoll → STVPoll × Option PyErr)
    (P : STVPoll → Prop)
    (hstep : ∀ t t1, P t → round t = (t1, none) → P t1)
    (hpres : ∀ t t1 e, P t → round t = (t1, some e) →
      t1.result.elected = t.result.elected ∧ t1.seats = t.seats) :
    ∀ (fuel : ℕ) (s s1 : STVPoll) (e : PyErr), P s →
      run_rounds round fuel s = some (s1, some e) → s1.is_complete = false := by
  intro fuel
  induction fuel with
  | zero =>
    intro s s1 e hP h
    rw [run_rounds.eq_def] at h
    dsimp only at h
    split at h
    · cases h
    · cases h
  | succ n ih =>
    intro s s1 e hP h
    rw [run_rounds.eq_def] at h
    dsimp only at h
    by_cases h0 : s.seats_to_fill = 0
    · rw [if_pos h0] at h
      cases h
    · rw [if_neg h0] at h
      rcases hr : round s with ⟨t1, o⟩
      rw [hr] at h
      cases o with
      | none =>
        exact ih t1 s1 e (hstep s t1 hP hr) h
      | some er =>
        dsimp only at h
        cases h
        obtain ⟨hel, hse⟩ := hpres s s1 e hP hr
        have hne : s.result.elected.length ≠ s.seats := by
          simp only [STVPoll.seats_to_fill] at h0
          omega
        simp only [STVPoll.is_complete, hel, hse]
        simp [hne]

/-- C2 (amended): the unresolved-tie signal never escapes calculate — it is
suppressed there and the poll state reached at the raise, with all its rounds,
is returned. For IRV (any pedantic flag) and for Scottish STV with pedantic
order disabled (the default), the returned result is then incomplete. With
pedantic order enabled, a Scottish tie-break raise can occur inside
elect_multiple after the final seat was filled, in which case the returned
result is complete (see the counterexample). -/
theorem c2_signal_always_caught (cfg : Config) (rfuel fuel : ℕ)
    (round : STVPoll → STVPoll × Option PyErr) (s0 s1 : STVPoll)
    (out : STVPoll × Option PyErr) :
    (calculate round fuel s0 = some out → out.2 ≠ some PyErr.incomplete)
    ∧ (s0.pedantic_order = false →
        run_rounds (ScottishSTV.calculate_round cfg rfuel) fuel s0.initial_votes
            = some (s1, some PyErr.incomplete) →
        calculate (ScottishSTV.calculate_round cfg rfuel) fuel s0 = some (s1, none)
        ∧ s1.is_complete = false)
    ∧ (run_rounds (IRV.calculate_round cfg) fuel s0.initial_votes
            = some (s1, some PyErr.incomplete) →
        calculate (IRV.calculate_round cfg) fuel s0 = some (s1, none)
        ∧ s1.is_complete = false) := by
  refine ⟨?_, ?_, ?_⟩
  · intro h
    rw [calculate] at h
    revert h
    cases hru : run_rounds round fuel s0.initial_votes with
    | none =>
      intro h
      cases h
    | some r =>
      rcases r with ⟨t1, o⟩
      cases o with
      | none =>
        intro h
        cases h
        simp
      | some er =>
        cases er with
        | incomplete =>
          intro h
          cases h
          simp
        | crash =>
          intro h
          cases h
          simp
        | fuel =>
          intro h
          cases h
          simp
  · intro hpd hru
    constructor
    · rw [calculate, hru]
      rfl
    · have hpd1 : s0.initial_votes.pedantic_order = false := hpd
      refine run_rounds_raise_incomplete (ScottishSTV.calculate_round cfg rfuel)
        (fun t => t.pedantic_order = false) ?_ ?_ fuel s0.initial_votes s1
        PyErr.incomplete hpd1 hru
      · intro t t1 hPt hr
        exact (scottish_round_effects cfg rfuel t t1 none hPt hr).1.trans hPt
      · intro t t1 e hPt hr
        obtain ⟨_, hs, hel⟩ := scottish_round_effects cfg rfuel t t1 (some e) hPt hr
        exact ⟨hel e rfl, hs⟩
  · intro hru
    constructor
    · rw [calculate, hru]
      rfl
    · refine run_rounds_raise_incomplete (IRV.calculate_round cfg)
        (fun _ => True) ?_ ?_ fuel s0.initial_votes s1 PyErr.incomplete trivial hru
      · intro t t1 _ _
        exact trivial
      · intro t t1 e _ hr
        obtain ⟨_, hs, hel⟩ := irv_round_effects cfg t t1 (some e) hr
        exact ⟨hel e rfl, hs⟩

/-- C2 witness: a two-candidate IRV tie with no tiebreakers raises the signal
in round one; calculate returns the raise-time state with the signal
suppressed and the result incomplete. -/
theorem c2_signal_always_caught_witness :
    run_rounds (IRV.calculate_round irvPlainConfig) 2 c2irvPoll.initial_votes
        = some (c2irvRaised, some PyErr.incomplete)
    ∧ calculate (IRV.calculate_round irvPlainConfig) 2 c2irvPoll = some (c2irvRaised, none)
    ∧ c2irvRaised.is_complete = false := by
  have hru : run_rounds (IRV.calculate_round irvPlainConfig) 2 c2irvPoll.initial_votes
      = some (c2irvRaised, some PyErr.incomplete) := by decide
  have h := (c2_signal_always_caught irvPlainConfig 0 2
    (IRV.calculate_round irvPlainConfig) c2irvPoll c2irvRaised
    (c2irvRaised, none)).2.2 hru
  exact ⟨hru, h.1, h.2⟩

/-- C2 counterexample: on the pedantic-order Scottish election pedanticPoll the
round loop raises the unresolved-tie signal after the only seat was filled;
calculate suppresses the signal as always, but the returned ElectionResult has
its completion flag true, not false as the claim requires. -/
theorem c2_pedantic_complete_despite_raise :
    (run_rounds (ScottishSTV.calculate_round pedanticConfig 9) 5
        pedanticPoll.initial_votes).map (fun r => (r.1.is_complete, r.2))
      = some (true, some PyErr.incomplete)
    ∧ (calculate (ScottishSTV.calculate_round pedanticConfig 9) 5 pedanticPoll).map
        (fun r => (r.1.is_complete, r.2)) = some (true, none) := by
  refine ⟨by decide, by decide⟩

/-- C10 witness: a concrete IRV election constructed with seats = 5 behaves as
one with seats = 2 and contests exactly one seat. -/
theorem c10_irv_single_seat_witness :
    IRV.init [] 5 [7] false = IRV.init [] 2 [7] false
    ∧ ∀ s, IRV.init [] 5 [7] false = .ok s →
        s.seats = 1
        ∧ (∀ t : STVPoll, t.seats = s.seats →
            (t.is_complete = true ↔ t.result.elected.length = 1)) := by
  refine ⟨(c10_irv_single_seat [] 5 2 [7] false
    { proposals := [7], seats := 1, pedantic_order := false, quota_cache := none,
      votes := [(7, 0)], excluded := [], ballots := [], votes_transferred := [],
      result := ElectionResult.fresh } rfl).1, ?_⟩
  intro s hs
  exact ⟨(c10_irv_single_seat [] 5 2 [7] false s hs).2.1,
         (c10_irv_single_seat [] 5 2 [7] false s hs).2.2⟩

end STV
